import Mathlib

/-!
WordExpress: node identity and connection fields of `src/data/schema/schema.js`.

A shallow embedding of the GraphQL schema module of WordExpress: the two
callbacks handed to `nodeDefinitions` (the id resolver and the type resolver),
the `id` fields of `GraphQLSetting` and `GraphQLUser`, and the connection
fields of `GraphQLUser`.

The collaborators of the module (`graphql-relay`, `../db.js`) are parameters of
the embedding.  The identifier codec and the connection pager, which the module
only calls, are modelled from the specification and are marked as such.  The
type resolver is embedded together with the scope in which its identifiers are
looked up: an identifier that the scope does not bind raises `ReferenceError`.
-/

namespace WordExpress

/-! ## Collaborators of the schema module -/

/-- The error kinds that the specification gives the identifier codec.  The
codec embedded here raises `InvalidTag` and `MalformedIdentifier` only. -/
inductive CodecError where
  | InvalidTag
  | MalformedIdentifier
  | UnknownTag
  deriving DecidableEq, Repr

/-- The object `{type, id}` that `fromGlobalId` yields. -/
structure ResolvedGlobalId where
  type : String
  id : String
  deriving DecidableEq, Repr

/-- The query object `ConnQueries` of `../db.js`: `V` is the type of fetched
values, `P` the type of promised arrays. -/
structure ConnQueries (V P : Type) where
  getOptionById : String → V
  getPostById : String → V
  getPostmetaById : String → V
  getOptions : P
  getPosts : String → P
  getPostmeta : Option Int → P

/-- The names the module imports from `../db.js`. -/
structure Db (V P : Type) where
  ConnQueries : ConnQueries V P
  getUser : String → V
  publicSettings : V

/-- A call of a fetch function of the data store, as recorded by the id resolver. -/
inductive DbCall where
  | getUser (id : String)
  | getOptionById (id : String)
  | getPostById (id : String)
  | getPostmetaById (id : String)
  deriving DecidableEq, Repr

/-- The object types of the schema: those the module declares and the three it
imports from `page.js`, `post.js` and `postmeta.js`. -/
inductive GraphQLType where
  | GraphQLOption
  | GraphQLMenuItem
  | GraphQLMenu
  | GraphQLSetting
  | GraphQLUser
  | GraphQLRoot
  | GraphQLPage
  | GraphQLPost
  | GraphQLPostmeta
  deriving DecidableEq, Repr

/-- The entity classes that the type resolver names in its `instanceof` tests,
each as its membership test on values: what the six identifiers denote in a
scope that binds them. -/
structure Classes (V : Type) where
  User : V → Bool
  Setting : V → Bool
  Page : V → Bool
  Option : V → Bool
  Post : V → Bool
  Postmeta : V → Bool

/-- A run-time error of the module. -/
inductive JsError where
  | ReferenceError (identifier : String)
  deriving DecidableEq, Repr

/-- The identifiers that schema.js binds at module level: its imports (lines
1-33) and its declarations (lines 35, 73, 87-90, 95, 116, 128, 136, 200, 212).
The six class identifiers of the type resolver are not among them, and they are
no globals of the Node.js runtime either. -/
def schemaScope : List String :=
  ["GraphQL", "GraphQLSchema", "GraphQLEnumType", "GraphQLObjectType", "GraphQLID",
   "GraphQLString", "GraphQLInt", "GraphQLNonNull", "GraphQLList",
   "connectionArgs", "connectionDefinitions", "connectionFromArray",
   "connectionFromPromisedArray", "fromGlobalId", "globalIdField",
   "mutationWithClientMutationId", "nodeDefinitions",
   "Conn", "ConnQueries", "getUser", "publicSettings",
   "GraphQLPage", "GraphQLPost", "PostsConnection", "GraphQLPostmeta", "PostmetaConnection",
   "nodeInterface", "nodeField", "GraphQLOption", "OptionConnection", "GraphQLOptionEdge",
   "GraphQLMenuItem", "GraphQLMenu", "GraphQLSetting", "GraphQLUser", "GraphQLRoot", "Schema"]

/-- The six class identifiers that the type resolver evaluates. -/
def classNames : List String :=
  ["User", "Setting", "Page", "Option", "Post", "Postmeta"]

/-- The test `obj instanceof identifier`: evaluating an identifier that the
scope does not bind raises `ReferenceError`; otherwise the test is the
membership test of the class. -/
def instanceOf {V : Type} (scope : List String) (identifier : String) (cls : V → Bool)
    (obj : V) : Except JsError Bool :=
  if identifier ∈ scope then .ok (cls obj) else .error (JsError.ReferenceError identifier)

/-! ## `nodeDefinitions`: the two callbacks (schema.js, lines 35-71) -/

/-- The id resolver, first callback of `nodeDefinitions` (lines 36-53).

The result is the list of data-store calls made together with the returned
value; `none` is the literal `null` of the last branch.  A failure of
`fromGlobalId` propagates. -/
def idResolver {V P : Type} (db : Db V P)
    (fromGlobalId : String → Except CodecError ResolvedGlobalId)
    (globalId : String) : Except CodecError (List DbCall × Option V) :=
  match fromGlobalId globalId with
  | .error e => .error e
  | .ok ⟨type, id⟩ =>
    if type = "User" then
      .ok ([DbCall.getUser id], some (db.getUser id))
    else if type = "Setting" then
      .ok ([], some db.publicSettings)
    else if type = "Option" then
      .ok ([DbCall.getOptionById id], some (db.ConnQueries.getOptionById id))
    else if type = "Page" then
      .ok ([DbCall.getPostById id], some (db.ConnQueries.getPostById id))
    else if type = "Post" then
      .ok ([DbCall.getPostById id], some (db.ConnQueries.getPostById id))
    else if type = "Postmeta" then
      .ok ([DbCall.getPostmetaById id], some (db.ConnQueries.getPostmetaById id))
    else
      .ok ([], none)

/-- The type resolver, second callback of `nodeDefinitions` (lines 54-70), in
the scope in which its identifiers are looked up.  The tests are evaluated in
the order of the source; the first to raise ends the evaluation. -/
def typeResolver {V : Type} (scope : List String) (cls : Classes V) (obj : V) :
    Except JsError (Option GraphQLType) :=
  match instanceOf scope "User" cls.User obj with
  | .error e => .error e
  | .ok true => .ok (some GraphQLType.GraphQLUser)
  | .ok false =>
    match instanceOf scope "Setting" cls.Setting obj with
    | .error e => .error e
    | .ok true => .ok (some GraphQLType.GraphQLSetting)
    | .ok false =>
      match instanceOf scope "Page" cls.Page obj with
      | .error e => .error e
      | .ok true => .ok (some GraphQLType.GraphQLPage)
      | .ok false =>
        match instanceOf scope "Option" cls.Option obj with
        | .error e => .error e
        | .ok true => .ok (some GraphQLType.GraphQLOption)
        | .ok false =>
          match instanceOf scope "Post" cls.Post obj with
          | .error e => .error e
          | .ok true => .ok (some GraphQLType.GraphQLPost)
          | .ok false =>
            match instanceOf scope "Postmeta" cls.Postmeta obj with
            | .error e => .error e
            | .ok true => .ok (some GraphQLType.GraphQLPostmeta)
            | .ok false => .ok none

/-- The node field of `nodeDefinitions` applies the type resolver to the value
the id resolver returned; a `null` value or a codec failure has no type. -/
def nodeType {V P : Type} (scope : List String) (db : Db V P) (cls : Classes V)
    (fromGlobalId : String → Except CodecError ResolvedGlobalId)
    (globalId : String) : Except JsError (Option GraphQLType) :=
  match idResolver db fromGlobalId globalId with
  | .ok (_, some obj) => typeResolver scope cls obj
  | _ => .ok none

/-- The predicates of the type resolver paired with the types they select, in
the order of registration used by `classify` in the specification. -/
def registeredPredicates {V : Type} (cls : Classes V) : List ((V → Bool) × GraphQLType) :=
  [(cls.User, GraphQLType.GraphQLUser), (cls.Setting, GraphQLType.GraphQLSetting),
   (cls.Page, GraphQLType.GraphQLPage), (cls.Option, GraphQLType.GraphQLOption),
   (cls.Post, GraphQLType.GraphQLPost), (cls.Postmeta, GraphQLType.GraphQLPostmeta)]

/-- The operation `classify` in the words of the specification: the type of the
first registered predicate that matches, `none` when none matches. -/
def classify {V : Type} (cls : Classes V) (obj : V) : Option GraphQLType :=
  ((registeredPredicates cls).find? (fun p => p.1 obj)).map (fun p => p.2)

/-- The class whose `instanceof` test selects a given type in the type resolver;
types the type resolver never returns have no class. -/
def classOf {V : Type} (cls : Classes V) : GraphQLType → V → Bool
  | .GraphQLUser => cls.User
  | .GraphQLSetting => cls.Setting
  | .GraphQLPage => cls.Page
  | .GraphQLOption => cls.Option
  | .GraphQLPost => cls.Post
  | .GraphQLPostmeta => cls.Postmeta
  | _ => fun _ => false

/-- The type tags named by the branches of the id resolver. -/
def registeredTags : List String :=
  ["User", "Setting", "Option", "Page", "Post", "Postmeta"]

/-- A data store over `Unit`, used to observe which branch the id resolver takes. -/
def unitDb : Db Unit Unit :=
  ⟨⟨fun _ => (), fun _ => (), fun _ => (), (), fun _ => (), fun _ => ()⟩, fun _ => (), ()⟩

/-- Whether the id resolver, given an identifier that decodes to `tag`, takes a
branch that returns a value of the data store and not the final `null`. -/
def resolvesTag (tag : String) : Bool :=
  match idResolver unitDb (fun g => .ok ⟨tag, g⟩) "" with
  | .ok (_, some _) => true
  | _ => false

/-! ## Identifier codec -/

/-- What the specification leaves open in the codec: the field separator and
the text obfuscation (base64-like) with its inverse. -/
structure CodecSetup where
  separator : Char
  hide : String → String
  reveal : String → Option String

/-- Splits a text at the first occurrence of the separator. -/
def splitAtSeparator (sep : Char) : List Char → Option (List Char × List Char)
  | [] => none
  | c :: cs =>
    if c = sep then some ([], cs)
    else match splitAtSeparator sep cs with
      | none => none
      | some (t, i) => some (c :: t, i)

/-- Modelled from the spec: `toGlobalId` belongs to the package `graphql-relay`,
which the module imports and which is not part of the sources.  It is `encode`
of section 4.1: it fails with `InvalidTag` if the tag is empty or contains the
field separator, and otherwise yields the obfuscated text of the tag, the
separator and the local id. -/
def toGlobalId (cfg : CodecSetup) (type_tag local_id : String) : Except CodecError String :=
  if type_tag = "" ∨ cfg.separator ∈ type_tag.data then
    .error CodecError.InvalidTag
  else
    .ok (cfg.hide ⟨type_tag.data ++ cfg.separator :: local_id.data⟩)

/-- Modelled from the spec: `fromGlobalId` belongs to the package
`graphql-relay`, which the module imports and which is not part of the sources.
It is `decode` of section 4.1: it fails with `MalformedIdentifier` when the
input is not validly encoded or has no separator, and otherwise yields the tag
before the first separator and the local id after it.  The module calls it with
the identifier alone (line 37) and itself answers `null` for every decoded tag
that it has no branch for (lines 50-52): the function knows no closed set of
kinds and rejects no tag. -/
def fromGlobalId (cfg : CodecSetup) (globalId : String) : Except CodecError ResolvedGlobalId :=
  match cfg.reveal globalId with
  | none => .error CodecError.MalformedIdentifier
  | some plain =>
    match splitAtSeparator cfg.separator plain.data with
    | none => .error CodecError.MalformedIdentifier
    | some (t, i) => .ok ⟨String.mk t, String.mk i⟩

/-- A pair is valid for the codec when the tag is not empty and does not
contain the field separator. -/
def ValidPair (cfg : CodecSetup) (type_tag : String) : Prop :=
  type_tag ≠ "" ∧ cfg.separator ∉ type_tag.data

/-! ## The Base64 obfuscation -/

/-- The UTF-8 bytes of a character. -/
def utf8EncodeChar (c : Char) : List Nat :=
  if c.toNat < 128 then [c.toNat]
  else if c.toNat < 2048 then [192 + c.toNat / 64, 128 + c.toNat % 64]
  else if c.toNat < 65536 then
    [224 + c.toNat / 4096, 128 + c.toNat / 64 % 64, 128 + c.toNat % 64]
  else
    [240 + c.toNat / 262144, 128 + c.toNat / 4096 % 64, 128 + c.toNat / 64 % 64,
     128 + c.toNat % 64]

/-- The UTF-8 bytes of a text. -/
def utf8Encode : List Char → List Nat
  | [] => []
  | c :: cs => utf8EncodeChar c ++ utf8Encode cs

/-- Whether a byte is a continuation byte of UTF-8. -/
def isContinuation (b : Nat) : Bool :=
  decide (128 ≤ b) && decide (b < 192)

/-- The character of a code point, if the code point is a Unicode scalar value. -/
def scalar (n : Nat) : Option Char :=
  if (Char.ofNat n).toNat = n then some (Char.ofNat n) else none

/-- The first character of a sequence of UTF-8 bytes and the bytes after it;
`none` if the bytes do not start with a character in UTF-8. -/
def utf8DecodeChar : List Nat → Option (Char × List Nat)
  | [] => none
  | b0 :: rest =>
    if b0 < 128 then
      (scalar b0).map (fun c => (c, rest))
    else if b0 < 192 then none
    else if b0 < 224 then
      match rest with
      | b1 :: rest1 =>
        if isContinuation b1 then
          (scalar ((b0 - 192) * 64 + (b1 - 128))).map (fun c => (c, rest1))
        else none
      | _ => none
    else if b0 < 240 then
      match rest with
      | b1 :: b2 :: rest2 =>
        if isContinuation b1 && isContinuation b2 then
          (scalar ((b0 - 224) * 4096 + (b1 - 128) * 64 + (b2 - 128))).map (fun c => (c, rest2))
        else none
      | _ => none
    else if b0 < 248 then
      match rest with
      | b1 :: b2 :: b3 :: rest3 =>
        if isContinuation b1 && isContinuation b2 && isContinuation b3 then
          (scalar ((b0 - 240) * 262144 + (b1 - 128) * 4096 + (b2 - 128) * 64 + (b3 - 128))).map
            (fun c => (c, rest3))
        else none
      | _ => none
    else none

/-- Decodes UTF-8 character by character, at most `fuel` characters. -/
def utf8DecodeFuel : Nat → List Nat → Option (List Char)
  | _, [] => some []
  | 0, _ :: _ => none
  | fuel + 1, b :: bs =>
    match utf8DecodeChar (b :: bs) with
    | none => none
    | some (c, rest) =>
      match utf8DecodeFuel fuel rest with
      | none => none
      | some cs => some (c :: cs)

/-- The text of a sequence of UTF-8 bytes; `none` if the bytes are not UTF-8.
Every character takes at least one byte, so the number of bytes is fuel enough. -/
def utf8Decode (bytes : List Nat) : Option (List Char) :=
  utf8DecodeFuel bytes.length bytes

/-- The Base64 alphabet. -/
def base64Alphabet : List Char :=
  "ABCDEFGHIJKLMNOPQRSTUVWXYZabcdefghijklmnopqrstuvwxyz0123456789+/".data

/-- The Base64 digit of a value below 64. -/
def sextetChar (n : Nat) : Char :=
  base64Alphabet.getD n '='

/-- The value of a Base64 digit. -/
def charSextet (c : Char) : Option Nat :=
  if base64Alphabet.indexOf c < 64 then some (base64Alphabet.indexOf c) else none

/-- Base64 of a sequence of bytes, with padding. -/
def base64Encode : List Nat → List Char
  | [] => []
  | [a] => [sextetChar (a / 4), sextetChar (a % 4 * 16), '=', '=']
  | [a, b] => [sextetChar (a / 4), sextetChar (a % 4 * 16 + b / 16), sextetChar (b % 16 * 4), '=']
  | a :: b :: c :: rest =>
    sextetChar (a / 4) :: sextetChar (a % 4 * 16 + b / 16) ::
      sextetChar (b % 16 * 4 + c / 64) :: sextetChar (c % 64) :: base64Encode rest

/-- The bytes of a Base64 text; `none` if the text is not Base64. -/
def base64Decode : List Char → Option (List Nat)
  | [] => some []
  | c1 :: c2 :: c3 :: c4 :: rest =>
    match charSextet c1, charSextet c2 with
    | some v1, some v2 =>
      if c3 = '=' then
        if c4 = '=' && rest.isEmpty then some [v1 * 4 + v2 / 16] else none
      else
        match charSextet c3 with
        | none => none
        | some v3 =>
          if c4 = '=' then
            if rest.isEmpty then some [v1 * 4 + v2 / 16, v2 % 16 * 16 + v3 / 4] else none
          else
            match charSextet c4, base64Decode rest with
            | some v4, some bs =>
              some ((v1 * 4 + v2 / 16) :: (v2 % 16 * 16 + v3 / 4) :: (v3 % 4 * 64 + v4) :: bs)
            | _, _ => none
    | _, _ => none
  | _ => none

/-- Modelled from the spec: the obfuscation of the codec is base64-like
(section 3); it is taken to be Base64, with padding, of the UTF-8 bytes of the
text. -/
def base64 (s : String) : String :=
  ⟨base64Encode (utf8Encode s.data)⟩

/-- The inverse of the obfuscation: the text whose UTF-8 bytes the Base64 text
encodes; `none` if the input is not Base64 of UTF-8 bytes. -/
def unbase64 (s : String) : Option String :=
  match base64Decode s.data with
  | none => none
  | some bytes =>
    match utf8Decode bytes with
    | none => none
    | some cs => some ⟨cs⟩

/-- The codec with the separator `:` and the Base64 obfuscation. -/
def base64Setup : CodecSetup :=
  ⟨':', base64, unbase64⟩

/-! ## The `id` fields -/

/-- Modelled from the spec: `globalIdField` belongs to the package
`graphql-relay`.  The field it declares emits, for an entity instance, the
global identifier of the given type name and the local id field of the
instance. -/
def globalIdField {V : Type} (toGlobalId : String → String → Except CodecError String)
    (localId : V → String) (typeName : String) (obj : V) : Except CodecError String :=
  toGlobalId typeName (localId obj)

/-- The field `id` of `GraphQLSetting` (line 131). -/
def GraphQLSetting.id {V : Type} (toGlobalId : String → String → Except CodecError String)
    (localId : V → String) (obj : V) : Except CodecError String :=
  globalIdField toGlobalId localId "User" obj

/-- The field `id` of `GraphQLUser` (line 139). -/
def GraphQLUser.id {V : Type} (toGlobalId : String → String → Except CodecError String)
    (localId : V → String) (obj : V) : Except CodecError String :=
  globalIdField toGlobalId localId "User" obj

/-! ## Connection pager -/

/-- Failures of the connection pager. -/
inductive PagerError where
  | InvalidCursor
  | InvalidArgument
  | UpstreamFetchFailure
  deriving DecidableEq, Repr

/-- The paging arguments `connectionArgs`: `{after?, before?, first?, last?}`. -/
structure ConnectionArgs where
  after : Option String
  before : Option String
  first : Option Int
  last : Option Int
  deriving DecidableEq, Repr

/-- An edge `(cursor, node)` of a connection. -/
structure Edge (α : Type) where
  cursor : String
  node : α
  deriving DecidableEq, Repr

/-- The page metadata of a connection. -/
structure PageInfo where
  hasPreviousPage : Bool
  hasNextPage : Bool
  startCursor : Option String
  endCursor : Option String
  deriving DecidableEq, Repr

/-- A connection: edges and page metadata. -/
structure Connection (α : Type) where
  edges : List (Edge α)
  pageInfo : PageInfo
  deriving DecidableEq, Repr

/-- The cursor codec, which the specification leaves open: a reversible
encoding of a position in the full sequence. -/
structure CursorCodec where
  cursorOf : Nat → String
  positionOf : String → Option Nat

/-- Step 2 of the pager: every element with its 0-based position in the full
sequence, counted from `start`. -/
def positionsFrom {α : Type} (start : Nat) : List α → List (Nat × α)
  | [] => []
  | x :: xs => (start, x) :: positionsFrom (start + 1) xs

/-- Step 3 of the pager, `after`: discards the elements at or before the decoded
position; a cursor that does not decode is `InvalidCursor`. -/
def applyAfter {α : Type} (cc : CursorCodec) (after : Option String)
    (xs : List (Nat × α)) : Except PagerError (List (Nat × α)) :=
  match after with
  | none => .ok xs
  | some c =>
    match cc.positionOf c with
    | none => .error PagerError.InvalidCursor
    | some p => .ok (xs.filter (fun e => decide (p < e.1)))

/-- Step 3 of the pager, `before`: discards the elements at or after the decoded
position; a cursor that does not decode is `InvalidCursor`. -/
def applyBefore {α : Type} (cc : CursorCodec) (before : Option String)
    (xs : List (Nat × α)) : Except PagerError (List (Nat × α)) :=
  match before with
  | none => .ok xs
  | some c =>
    match cc.positionOf c with
    | none => .error PagerError.InvalidCursor
    | some p => .ok (xs.filter (fun e => decide (e.1 < p)))

/-- Step 4 of the pager, `first`: keeps at most the first `n` elements; a
negative count is `InvalidArgument`. -/
def applyFirst {α : Type} (first : Option Int)
    (xs : List (Nat × α)) : Except PagerError (List (Nat × α)) :=
  match first with
  | none => .ok xs
  | some n => if n < 0 then .error PagerError.InvalidArgument else .ok (xs.take n.toNat)

/-- Step 4 of the pager, `last`: keeps at most the last `n` elements; a negative
count is `InvalidArgument`. -/
def applyLast {α : Type} (last : Option Int)
    (xs : List (Nat × α)) : Except PagerError (List (Nat × α)) :=
  match last with
  | none => .ok xs
  | some n =>
    if n < 0 then .error PagerError.InvalidArgument
    else .ok (xs.drop (xs.length - n.toNat))

/-- Modelled from the spec: the pager is `connectionFromArray` of the package
`graphql-relay`, which the module imports and which is not part of the sources.
It is `paginate` of section 4.3 on a sequence in hand: positions (step 2),
`after` then `before` (step 3), `first` then `last` (step 4), edges with the
cursor of the position in the full sequence (step 5), page metadata (step 6). -/
def paginate {α : Type} (cc : CursorCodec) (seq : List α) (args : ConnectionArgs) :
    Except PagerError (Connection α) :=
  match applyAfter cc args.after (positionsFrom 0 seq) with
  | .error e => .error e
  | .ok afterKept =>
    match applyBefore cc args.before afterKept with
    | .error e => .error e
    | .ok filtered =>
      match applyFirst args.first filtered with
      | .error e => .error e
      | .ok leading =>
        match applyLast args.last leading with
        | .error e => .error e
        | .ok window =>
          .ok
            ⟨window.map (fun e => ⟨cc.cursorOf e.1, e.2⟩),
             ⟨decide (window.length < leading.length),
              decide (leading.length < filtered.length),
              window.head?.map (fun e => cc.cursorOf e.1),
              window.getLast?.map (fun e => cc.cursorOf e.1)⟩⟩

/-- Modelled from the spec: `connectionFromPromisedArray` of the package
`graphql-relay`.  It is `paginate` of section 4.3 on a pending sequence
(step 1): a failed fetch propagates, a fetched sequence is paginated. -/
def connectionFromPromisedArray {α ε : Type} (cc : CursorCodec)
    (pending : Except ε (List α)) (args : ConnectionArgs) :
    Except PagerError (Connection α) :=
  match pending with
  | .error _ => .error PagerError.UpstreamFetchFailure
  | .ok seq => paginate cc seq args

/-- The paging arguments that ask for the first `n` elements only. -/
def firstArgs (n : Nat) : ConnectionArgs :=
  ⟨none, none, some (n : Int), none⟩

/-- The paging arguments that ask for the first `n` elements after a cursor. -/
def afterFirstArgs (after : Option String) (n : Nat) : ConnectionArgs :=
  ⟨after, none, some (n : Int), none⟩

/-! ## Connection fields of `GraphQLUser` (schema.js, lines 146-195) -/

/-- What a field resolver hands back: the promised array as fetched, or the
connection that the pager made of it. -/
inductive FieldValue (P C : Type) where
  | promisedArray (p : P)
  | connection (c : C)
  deriving DecidableEq, Repr

/-- The arguments of the field `posts`: `post_type` and the paging arguments. -/
structure PostsArgs extends ConnectionArgs where
  post_type : String

/-- The arguments of the field `postmeta`: `post_id` and the paging arguments. -/
structure PostmetaArgs extends ConnectionArgs where
  post_id : Option Int

/-- The resolver of the field `options` (lines 149-151). -/
def GraphQLUser.options.resolve {V P C : Type} (db : Db V P)
    (connectionFromPromisedArray : P → ConnectionArgs → C)
    (_root : V) (args : ConnectionArgs) : FieldValue P C :=
  FieldValue.connection (connectionFromPromisedArray db.ConnQueries.getOptions args)

/-- The resolver of the field `posts` (lines 162-164). -/
def GraphQLUser.posts.resolve {V P C : Type} (db : Db V P)
    (connectionFromPromisedArray : P → ConnectionArgs → C)
    (_root : V) (args : PostsArgs) : FieldValue P C :=
  FieldValue.connection
    (connectionFromPromisedArray (db.ConnQueries.getPosts args.post_type) args.toConnectionArgs)

/-- The resolver of the field `postmeta` (lines 192-194). -/
def GraphQLUser.postmeta.resolve {V P C : Type} (db : Db V P)
    (_root : V) (args : PostmetaArgs) : FieldValue P C :=
  FieldValue.promisedArray (db.ConnQueries.getPostmeta args.post_id)

/-! ## Sample collaborators -/

/-- A text obfuscation that is its own inverse: the text read backwards. -/
def mirror (s : String) : String :=
  ⟨s.data.reverse⟩

/-- A codec setup: separator `:` and the mirror obfuscation. -/
def sampleSetup : CodecSetup :=
  ⟨':', mirror, fun s => some (mirror s)⟩

/-- A stored row: the class it is an instance of, and its local id. -/
structure Row where
  kind : String
  id : String
  deriving DecidableEq, Repr

/-- A data store in which the post with id `2` is a page and every other post
is a post. -/
def sampleDb : Db Row (List Row) :=
  ⟨⟨fun id => ⟨"Option", id⟩,
    fun id => ⟨if id = "2" then "Page" else "Post", id⟩,
    fun id => ⟨"Postmeta", id⟩,
    [⟨"Option", "1"⟩, ⟨"Option", "2"⟩],
    fun _ => [⟨"Post", "1"⟩, ⟨"Post", "3"⟩],
    fun _ => [⟨"Postmeta", "1"⟩]⟩,
   fun id => ⟨"User", id⟩,
   ⟨"Setting", "1"⟩⟩

/-- The entity classes over rows: a row is an instance of the class it names. -/
def sampleClasses : Classes Row :=
  ⟨fun r => decide (r.kind = "User"), fun r => decide (r.kind = "Setting"),
   fun r => decide (r.kind = "Page"), fun r => decide (r.kind = "Option"),
   fun r => decide (r.kind = "Post"), fun r => decide (r.kind = "Postmeta")⟩

/-- A cursor codec in unary: position `n` is written as `n` strokes. -/
def tallyCursor : CursorCodec :=
  ⟨fun n => ⟨List.replicate n '|'⟩,
   fun s => if s.data.all (fun c => c == '|') then some s.data.length else none⟩

/-- The scope of schema.js extended with the six class identifiers, as it would
be if the module imported the entity classes. -/
def importedScope : List String :=
  classNames ++ schemaScope

/-! ## The node registry -/

theorem idResolver_of_decoded {V P : Type} (db : Db V P)
    (decode : String → Except CodecError ResolvedGlobalId) (g type id : String)
    (h : decode g = .ok ⟨type, id⟩) :
    idResolver db decode g =
      if type = "User" then
        .ok ([DbCall.getUser id], some (db.getUser id))
      else if type = "Setting" then
        .ok ([], some db.publicSettings)
      else if type = "Option" then
        .ok ([DbCall.getOptionById id], some (db.ConnQueries.getOptionById id))
      else if type = "Page" then
        .ok ([DbCall.getPostById id], some (db.ConnQueries.getPostById id))
      else if type = "Post" then
        .ok ([DbCall.getPostById id], some (db.ConnQueries.getPostById id))
      else if type = "Postmeta" then
        .ok ([DbCall.getPostmetaById id], some (db.ConnQueries.getPostmetaById id))
      else
        .ok ([], none) := by
  simp only [idResolver, h]

theorem bind_idResolver {V P : Type} (db : Db V P)
    (encode : String → String → Except CodecError String)
    (decode : String → Except CodecError ResolvedGlobalId) (tag id : String)
    (h : ∃ g, encode tag id = .ok g ∧ decode g = .ok ⟨tag, id⟩) :
    ∃ g, encode tag id = .ok g ∧ decode g = .ok ⟨tag, id⟩ ∧
      (encode tag id).bind (idResolver db decode) = idResolver db decode g := by
  obtain ⟨g, hg, hd⟩ := h
  exact ⟨g, hg, hd, by rw [hg]; rfl⟩

/-- C1: for every registered tag and every local id, the id resolver applied to
the global id that encodes the pair returns exactly what the fetch function of
that tag returns for the id (`getUser`, the public settings, `getOptionById`,
`getPostById` for `Page` and `Post`, `getPostmetaById`), and calls no other. -/
theorem idResolver_registered {V P : Type} (db : Db V P)
    (encode : String → String → Except CodecError String)
    (decode : String → Except CodecError ResolvedGlobalId) (id : String)
    (hcodec : ∀ tag ∈ registeredTags,
      ∃ g, encode tag id = .ok g ∧ decode g = .ok ⟨tag, id⟩) :
    (encode "User" id).bind (idResolver db decode)
        = .ok ([DbCall.getUser id], some (db.getUser id)) ∧
    (encode "Setting" id).bind (idResolver db decode)
        = .ok ([], some db.publicSettings) ∧
    (encode "Option" id).bind (idResolver db decode)
        = .ok ([DbCall.getOptionById id], some (db.ConnQueries.getOptionById id)) ∧
    (encode "Page" id).bind (idResolver db decode)
        = .ok ([DbCall.getPostById id], some (db.ConnQueries.getPostById id)) ∧
    (encode "Post" id).bind (idResolver db decode)
        = .ok ([DbCall.getPostById id], some (db.ConnQueries.getPostById id)) ∧
    (encode "Postmeta" id).bind (idResolver db decode)
        = .ok ([DbCall.getPostmetaById id], some (db.ConnQueries.getPostmetaById id)) := by
  refine ⟨?_, ?_, ?_, ?_, ?_, ?_⟩
  · obtain ⟨g, _, hd, hb⟩ := bind_idResolver db encode decode "User" id
      (hcodec "User" (by decide))
    rw [hb, idResolver_of_decoded db decode g "User" id hd]; rfl
  · obtain ⟨g, _, hd, hb⟩ := bind_idResolver db encode decode "Setting" id
      (hcodec "Setting" (by decide))
    rw [hb, idResolver_of_decoded db decode g "Setting" id hd]; rfl
  · obtain ⟨g, _, hd, hb⟩ := bind_idResolver db encode decode "Option" id
      (hcodec "Option" (by decide))
    rw [hb, idResolver_of_decoded db decode g "Option" id hd]; rfl
  · obtain ⟨g, _, hd, hb⟩ := bind_idResolver db encode decode "Page" id
      (hcodec "Page" (by decide))
    rw [hb, idResolver_of_decoded db decode g "Page" id hd]; rfl
  · obtain ⟨g, _, hd, hb⟩ := bind_idResolver db encode decode "Post" id
      (hcodec "Post" (by decide))
    rw [hb, idResolver_of_decoded db decode g "Post" id hd]; rfl
  · obtain ⟨g, _, hd, hb⟩ := bind_idResolver db encode decode "Postmeta" id
      (hcodec "Postmeta" (by decide))
    rw [hb, idResolver_of_decoded db decode g "Postmeta" id hd]; rfl

/-- C4: for every global id that decodes to a tag other than `User`, `Setting`,
`Option`, `Page`, `Post` and `Postmeta`, the id resolver returns `null`, raises
no error and calls no fetch function. -/
theorem idResolver_unregistered {V P : Type} (db : Db V P)
    (decode : String → Except CodecError ResolvedGlobalId) (g type id : String)
    (hdec : decode g = .ok ⟨type, id⟩) (hun : type ∉ registeredTags) :
    idResolver db decode g = .ok ([], none) := by
  rw [idResolver_of_decoded db decode g type id hdec]
  simp only [registeredTags, List.mem_cons, List.mem_singleton, not_or,
    List.not_mem_nil, or_false] at hun
  obtain ⟨h1, h2, h3, h4, h5, h6⟩ := hun
  simp only [h1, h2, h3, h4, h5, h6, if_false]

/-! ## The type resolver -/

theorem typeResolver_schemaScope {V : Type} (cls : Classes V) (obj : V) :
    typeResolver schemaScope cls obj = .error (JsError.ReferenceError "User") := by
  have h : ¬ "User" ∈ schemaScope := by decide
  simp only [typeResolver, instanceOf, h, if_false]

theorem typeResolver_of_bound {V : Type} (scope : List String) (cls : Classes V) (obj : V)
    (hscope : ∀ n ∈ classNames, n ∈ scope) :
    typeResolver scope cls obj =
      .ok (if cls.User obj then some GraphQLType.GraphQLUser
        else if cls.Setting obj then some GraphQLType.GraphQLSetting
        else if cls.Page obj then some GraphQLType.GraphQLPage
        else if cls.Option obj then some GraphQLType.GraphQLOption
        else if cls.Post obj then some GraphQLType.GraphQLPost
        else if cls.Postmeta obj then some GraphQLType.GraphQLPostmeta
        else none) := by
  have h1 : "User" ∈ scope := hscope _ (by decide)
  have h2 : "Setting" ∈ scope := hscope _ (by decide)
  have h3 : "Page" ∈ scope := hscope _ (by decide)
  have h4 : "Option" ∈ scope := hscope _ (by decide)
  have h5 : "Post" ∈ scope := hscope _ (by decide)
  have h6 : "Postmeta" ∈ scope := hscope _ (by decide)
  simp only [typeResolver, instanceOf, h1, h2, h3, h4, h5, h6, if_true]
  cases cls.User obj <;> cases cls.Setting obj <;> cases cls.Page obj <;>
    cases cls.Option obj <;> cases cls.Post obj <;> cases cls.Postmeta obj <;> rfl

/-- C5: in the scope of schema.js, which binds none of the six class
identifiers, the type resolver raises `ReferenceError` at its first test,
`obj instanceof User`, for every entity instance: it returns neither a type nor
`null`.  In every scope that binds the six identifiers it returns the type of
the first predicate that matches in the order `User`, `Setting`, `Page`,
`Option`, `Post`, `Postmeta`, and `null` when none matches. -/
theorem typeResolver_raises {V : Type} (cls : Classes V) (obj : V) :
    typeResolver schemaScope cls obj = .error (JsError.ReferenceError "User") ∧
    (∀ scope : List String, (∀ n ∈ classNames, n ∈ scope) →
      typeResolver scope cls obj = .ok (classify cls obj)) := by
  refine ⟨typeResolver_schemaScope cls obj, ?_⟩
  intro scope hscope
  rw [typeResolver_of_bound scope cls obj hscope]
  simp only [classify, registeredPredicates, List.find?]
  cases cls.User obj <;> cases cls.Setting obj <;> cases cls.Page obj <;>
    cases cls.Option obj <;> cases cls.Post obj <;> cases cls.Postmeta obj <;> rfl

/-! ## The identifier codec -/

theorem splitAtSeparator_append (sep : Char) (t i : List Char) (h : sep ∉ t) :
    splitAtSeparator sep (t ++ sep :: i) = some (t, i) := by
  induction t with
  | nil => simp [splitAtSeparator]
  | cons c cs ih =>
    have hc : c ≠ sep := fun e => h (by simp [e])
    have hcs : sep ∉ cs := fun e => h (by simp [e])
    simp [splitAtSeparator, hc, ih hcs]

theorem toGlobalId_of_valid (cfg : CodecSetup) (tag id : String) (hv : ValidPair cfg tag) :
    toGlobalId cfg tag id = .ok (cfg.hide ⟨tag.data ++ cfg.separator :: id.data⟩) := by
  unfold toGlobalId
  rw [if_neg]
  rintro (h | h)
  · exact hv.1 h
  · exact hv.2 h

theorem fromGlobalId_hide (cfg : CodecSetup)
    (hrev : ∀ s, cfg.reveal (cfg.hide s) = some s) (tag id : String)
    (hsep : cfg.separator ∉ tag.data) :
    fromGlobalId cfg (cfg.hide ⟨tag.data ++ cfg.separator :: id.data⟩) = .ok ⟨tag, id⟩ := by
  unfold fromGlobalId
  rw [hrev]
  simp only [splitAtSeparator_append cfg.separator tag.data id.data hsep]

theorem roundtrip_of_valid (cfg : CodecSetup)
    (hrev : ∀ s, cfg.reveal (cfg.hide s) = some s) (tag id : String)
    (hv : ValidPair cfg tag) :
    ∃ g, toGlobalId cfg tag id = .ok g ∧ fromGlobalId cfg g = .ok ⟨tag, id⟩ :=
  ⟨_, toGlobalId_of_valid cfg tag id hv, fromGlobalId_hide cfg hrev tag id hv.2⟩

theorem mirror_mirror (s : String) : mirror (mirror s) = s := by
  simp [mirror]

theorem sampleSetup_reveal_hide (s : String) :
    sampleSetup.reveal (sampleSetup.hide s) = some s := by
  simp [sampleSetup, mirror_mirror]

theorem sampleSetup_registered (id : String) :
    ∀ tag ∈ registeredTags,
      ∃ g, toGlobalId sampleSetup tag id = .ok g ∧
        fromGlobalId sampleSetup g = .ok ⟨tag, id⟩ := by
  intro tag htag
  simp only [registeredTags, List.mem_cons, List.mem_singleton, List.not_mem_nil,
    or_false] at htag
  rcases htag with rfl | rfl | rfl | rfl | rfl | rfl <;>
    exact roundtrip_of_valid sampleSetup sampleSetup_reveal_hide _ id
      ⟨by decide, by decide⟩

/-- C1, at the sample codec and data store, for the local id `7`. -/
theorem idResolver_registered_witness :
    (toGlobalId sampleSetup "User" "7").bind (idResolver sampleDb (fromGlobalId sampleSetup))
        = .ok ([DbCall.getUser "7"], some (sampleDb.getUser "7")) ∧
    (toGlobalId sampleSetup "Setting" "7").bind (idResolver sampleDb (fromGlobalId sampleSetup))
        = .ok ([], some sampleDb.publicSettings) ∧
    (toGlobalId sampleSetup "Option" "7").bind (idResolver sampleDb (fromGlobalId sampleSetup))
        = .ok ([DbCall.getOptionById "7"], some (sampleDb.ConnQueries.getOptionById "7")) ∧
    (toGlobalId sampleSetup "Page" "7").bind (idResolver sampleDb (fromGlobalId sampleSetup))
        = .ok ([DbCall.getPostById "7"], some (sampleDb.ConnQueries.getPostById "7")) ∧
    (toGlobalId sampleSetup "Post" "7").bind (idResolver sampleDb (fromGlobalId sampleSetup))
        = .ok ([DbCall.getPostById "7"], some (sampleDb.ConnQueries.getPostById "7")) ∧
    (toGlobalId sampleSetup "Postmeta" "7").bind (idResolver sampleDb (fromGlobalId sampleSetup))
        = .ok ([DbCall.getPostmetaById "7"],
            some (sampleDb.ConnQueries.getPostmetaById "7")) :=
  idResolver_registered sampleDb (toGlobalId sampleSetup) (fromGlobalId sampleSetup) "7"
    (sampleSetup_registered "7")

/-- C4, at the global id of the pair (`Menu`, `3`) under the sample codec. -/
theorem idResolver_unregistered_witness :
    fromGlobalId sampleSetup "3:uneM" = .ok ⟨"Menu", "3"⟩ ∧
    "Menu" ∉ registeredTags ∧
    idResolver sampleDb (fromGlobalId sampleSetup) "3:uneM" = .ok ([], none) :=
  ⟨by rfl, by decide,
   idResolver_unregistered sampleDb (fromGlobalId sampleSetup) "3:uneM" "Menu" "3"
     (by rfl) (by decide)⟩

/-! ## Resolvable and classifiable kinds -/

theorem resolvesTag_iff (tag : String) : resolvesTag tag = true ↔ tag ∈ registeredTags := by
  simp only [resolvesTag, idResolver, registeredTags, List.mem_cons, List.mem_singleton,
    List.not_mem_nil, or_false]
  by_cases h1 : tag = "User"
  · simp [h1]
  by_cases h2 : tag = "Setting"
  · simp [h2]
  by_cases h3 : tag = "Option"
  · simp [h3]
  by_cases h4 : tag = "Page"
  · simp [h4]
  by_cases h5 : tag = "Post"
  · simp [h5]
  by_cases h6 : tag = "Postmeta"
  · simp [h6]
  simp [h1, h2, h3, h4, h5, h6]

/-- C9: the tags for which the id resolver dispatches to the data store are
`User`, `Setting`, `Option`, `Page`, `Post` and `Postmeta`, among them `User`;
but in the scope of schema.js the type resolver returns no type at all, for any
classes and any entity: the resolvable kinds are not classifiable. -/
theorem resolvable_not_classifiable :
    resolvesTag "User" = true ∧
    (∀ tag : String, resolvesTag tag = true ↔ tag ∈ registeredTags) ∧
    (∀ (V : Type) (cls : Classes V) (obj : V) (T : GraphQLType),
      typeResolver schemaScope cls obj ≠ .ok (some T)) := by
  refine ⟨by decide, resolvesTag_iff, ?_⟩
  intro V cls obj T h
  rw [typeResolver_schemaScope cls obj] at h
  cases h

/-! ## Classifying what the id resolver returns -/

theorem typeResolver_of_instance {V : Type} (scope : List String) (cls : Classes V) (obj : V)
    (T : GraphQLType) (hscope : ∀ n ∈ classNames, n ∈ scope)
    (hex : ∀ (T1 T2 : GraphQLType) (v : V),
      classOf cls T1 v = true → classOf cls T2 v = true → T1 = T2)
    (hinst : classOf cls T obj = true) :
    typeResolver scope cls obj = .ok (some T) := by
  have hne : ∀ T2 : GraphQLType, T2 ≠ T → classOf cls T2 obj = false := by
    intro T2 h2
    cases hc : classOf cls T2 obj
    · rfl
    · exact absurd (hex T2 T obj hc hinst) h2
  have hU := hne GraphQLType.GraphQLUser
  have hS := hne GraphQLType.GraphQLSetting
  have hPg := hne GraphQLType.GraphQLPage
  have hO := hne GraphQLType.GraphQLOption
  have hPo := hne GraphQLType.GraphQLPost
  simp only [classOf] at hU hS hPg hO hPo
  rw [typeResolver_of_bound scope cls obj hscope]
  cases T <;> simp only [classOf] at hinst <;> first
    | exact absurd hinst (by decide)
    | simp [hinst, hU, hS, hPg, hO, hPo]

theorem nodeType_of_decoded {V P : Type} (scope : List String) (db : Db V P)
    (cls : Classes V) (decode : String → Except CodecError ResolvedGlobalId) (g : String)
    (calls : List DbCall) (obj : V)
    (h : idResolver db decode g = .ok (calls, some obj)) :
    nodeType scope db cls decode g = typeResolver scope cls obj := by
  simp only [nodeType, h]

theorem nodeType_of_fetch {V P : Type} (scope : List String) (db : Db V P) (cls : Classes V)
    (encode : String → String → Except CodecError String)
    (decode : String → Except CodecError ResolvedGlobalId) (tag id : String)
    (calls : List DbCall) (obj : V) (T : GraphQLType)
    (hcodec : ∃ g, encode tag id = .ok g ∧ decode g = .ok ⟨tag, id⟩)
    (hbranch : ∀ g, decode g = .ok ⟨tag, id⟩ →
      idResolver db decode g = .ok (calls, some obj))
    (hscope : ∀ n ∈ classNames, n ∈ scope)
    (hex : ∀ (T1 T2 : GraphQLType) (v : V),
      classOf cls T1 v = true → classOf cls T2 v = true → T1 = T2)
    (hinst : classOf cls T obj = true) :
    ∃ g, encode tag id = .ok g ∧ nodeType scope db cls decode g = .ok (some T) := by
  obtain ⟨g, hg, hd⟩ := hcodec
  refine ⟨g, hg, ?_⟩
  rw [nodeType_of_decoded scope db cls decode g calls obj (hbranch g hd)]
  exact typeResolver_of_instance scope cls obj T hscope hex hinst

theorem sampleClasses_exclusive (T1 T2 : GraphQLType) (v : Row)
    (h1 : classOf sampleClasses T1 v = true) (h2 : classOf sampleClasses T2 v = true) :
    T1 = T2 := by
  cases T1 <;> cases T2 <;> simp only [classOf, sampleClasses, decide_eq_true_eq] at h1 h2 <;>
    first
      | rfl
      | exact absurd h1 (by decide)
      | exact absurd h2 (by decide)
      | exact absurd (h1.symm.trans h2) (by decide)

/-- C2, as amended: the ids of kind `Page` and of kind `Post` with the same
local id resolve to the same entity, fetched by `getPostById`, and are
classified with the same outcome: `GraphQLPage` if that entity is a `Page`,
`GraphQLPost` if it is a `Post`.  For the kinds `User`, `Setting`, `Option` and
`Postmeta`, if the entity that the fetch function of the kind returns for the
local id is an instance of the class of the kind, classifying what the id
resolver returns for the encoded pair yields the type of the kind.  The
classes are mutually exclusive, and the classifications hold in every scope
that binds the six class identifiers. -/
theorem nodeType_recovers_kind {V P : Type} (scope : List String) (db : Db V P)
    (cls : Classes V) (encode : String → String → Except CodecError String)
    (decode : String → Except CodecError ResolvedGlobalId) (id : String)
    (hcodec : ∀ tag ∈ registeredTags,
      ∃ g, encode tag id = .ok g ∧ decode g = .ok ⟨tag, id⟩)
    (hex : ∀ (T1 T2 : GraphQLType) (v : V),
      classOf cls T1 v = true → classOf cls T2 v = true → T1 = T2) :
    (∃ gPage gPost, encode "Page" id = .ok gPage ∧ encode "Post" id = .ok gPost ∧
      idResolver db decode gPage = idResolver db decode gPost ∧
      nodeType scope db cls decode gPage = nodeType scope db cls decode gPost ∧
      ((∀ n ∈ classNames, n ∈ scope) →
        (cls.Page (db.ConnQueries.getPostById id) = true →
          nodeType scope db cls decode gPost = .ok (some GraphQLType.GraphQLPage)) ∧
        (cls.Post (db.ConnQueries.getPostById id) = true →
          nodeType scope db cls decode gPost = .ok (some GraphQLType.GraphQLPost)))) ∧
    ((∀ n ∈ classNames, n ∈ scope) →
      (cls.User (db.getUser id) = true →
        ∃ g, encode "User" id = .ok g ∧
          nodeType scope db cls decode g = .ok (some GraphQLType.GraphQLUser)) ∧
      (cls.Setting db.publicSettings = true →
        ∃ g, encode "Setting" id = .ok g ∧
          nodeType scope db cls decode g = .ok (some GraphQLType.GraphQLSetting)) ∧
      (cls.Option (db.ConnQueries.getOptionById id) = true →
        ∃ g, encode "Option" id = .ok g ∧
          nodeType scope db cls decode g = .ok (some GraphQLType.GraphQLOption)) ∧
      (cls.Postmeta (db.ConnQueries.getPostmetaById id) = true →
        ∃ g, encode "Postmeta" id = .ok g ∧
          nodeType scope db cls decode g = .ok (some GraphQLType.GraphQLPostmeta))) := by
  constructor
  · obtain ⟨gPage, hgPage, hdPage⟩ := hcodec "Page" (by decide)
    obtain ⟨gPost, hgPost, hdPost⟩ := hcodec "Post" (by decide)
    have hPage : idResolver db decode gPage =
        .ok ([DbCall.getPostById id], some (db.ConnQueries.getPostById id)) := by
      rw [idResolver_of_decoded db decode gPage "Page" id hdPage]; rfl
    have hPost : idResolver db decode gPost =
        .ok ([DbCall.getPostById id], some (db.ConnQueries.getPostById id)) := by
      rw [idResolver_of_decoded db decode gPost "Post" id hdPost]; rfl
    have hnPost := nodeType_of_decoded scope db cls decode gPost _ _ hPost
    refine ⟨gPage, gPost, hgPage, hgPost, hPage.trans hPost.symm, ?_, ?_⟩
    · rw [nodeType_of_decoded scope db cls decode gPage _ _ hPage, hnPost]
    · intro hscope
      rw [hnPost]
      exact ⟨fun h => typeResolver_of_instance scope cls _ GraphQLType.GraphQLPage hscope hex h,
        fun h => typeResolver_of_instance scope cls _ GraphQLType.GraphQLPost hscope hex h⟩
  · intro hscope
    refine ⟨fun h => ?_, fun h => ?_, fun h => ?_, fun h => ?_⟩
    · exact nodeType_of_fetch scope db cls encode decode "User" id _ _
        GraphQLType.GraphQLUser (hcodec _ (by decide))
        (fun g hd => by rw [idResolver_of_decoded db decode g "User" id hd]; rfl)
        hscope hex h
    · exact nodeType_of_fetch scope db cls encode decode "Setting" id _ _
        GraphQLType.GraphQLSetting (hcodec _ (by decide))
        (fun g hd => by rw [idResolver_of_decoded db decode g "Setting" id hd]; rfl)
        hscope hex h
    · exact nodeType_of_fetch scope db cls encode decode "Option" id _ _
        GraphQLType.GraphQLOption (hcodec _ (by decide))
        (fun g hd => by rw [idResolver_of_decoded db decode g "Option" id hd]; rfl)
        hscope hex h
    · exact nodeType_of_fetch scope db cls encode decode "Postmeta" id _ _
        GraphQLType.GraphQLPostmeta (hcodec _ (by decide))
        (fun g hd => by rw [idResolver_of_decoded db decode g "Postmeta" id hd]; rfl)
        hscope hex h

/-- C2 as amended, at the sample store and the local id `2`, in the scope that
binds the six class identifiers. -/
theorem nodeType_recovers_kind_witness :
    (∃ gPage gPost, toGlobalId sampleSetup "Page" "2" = .ok gPage ∧
      toGlobalId sampleSetup "Post" "2" = .ok gPost ∧
      idResolver sampleDb (fromGlobalId sampleSetup) gPage
        = idResolver sampleDb (fromGlobalId sampleSetup) gPost ∧
      nodeType importedScope sampleDb sampleClasses (fromGlobalId sampleSetup) gPage
        = nodeType importedScope sampleDb sampleClasses (fromGlobalId sampleSetup) gPost ∧
      ((∀ n ∈ classNames, n ∈ importedScope) →
        (sampleClasses.Page (sampleDb.ConnQueries.getPostById "2") = true →
          nodeType importedScope sampleDb sampleClasses (fromGlobalId sampleSetup) gPost
            = .ok (some GraphQLType.GraphQLPage)) ∧
        (sampleClasses.Post (sampleDb.ConnQueries.getPostById "2") = true →
          nodeType importedScope sampleDb sampleClasses (fromGlobalId sampleSetup) gPost
            = .ok (some GraphQLType.GraphQLPost)))) ∧
    ((∀ n ∈ classNames, n ∈ importedScope) →
      (sampleClasses.User (sampleDb.getUser "2") = true →
        ∃ g, toGlobalId sampleSetup "User" "2" = .ok g ∧
          nodeType importedScope sampleDb sampleClasses (fromGlobalId sampleSetup) g
            = .ok (some GraphQLType.GraphQLUser)) ∧
      (sampleClasses.Setting sampleDb.publicSettings = true →
        ∃ g, toGlobalId sampleSetup "Setting" "2" = .ok g ∧
          nodeType importedScope sampleDb sampleClasses (fromGlobalId sampleSetup) g
            = .ok (some GraphQLType.GraphQLSetting)) ∧
      (sampleClasses.Option (sampleDb.ConnQueries.getOptionById "2") = true →
        ∃ g, toGlobalId sampleSetup "Option" "2" = .ok g ∧
          nodeType importedScope sampleDb sampleClasses (fromGlobalId sampleSetup) g
            = .ok (some GraphQLType.GraphQLOption)) ∧
      (sampleClasses.Postmeta (sampleDb.ConnQueries.getPostmetaById "2") = true →
        ∃ g, toGlobalId sampleSetup "Postmeta" "2" = .ok g ∧
          nodeType importedScope sampleDb sampleClasses (fromGlobalId sampleSetup) g
            = .ok (some GraphQLType.GraphQLPostmeta))) :=
  nodeType_recovers_kind importedScope sampleDb sampleClasses (toGlobalId sampleSetup)
    (fromGlobalId sampleSetup) "2" (sampleSetup_registered "2") sampleClasses_exclusive

/-- C2 fails as stated: in the sample store, whose classes are mutually
exclusive, the post with local id `2` is a page.  The id of (`Post`, `2`)
resolves to it, as the id of (`Page`, `2`) does.  Classifying it raises
`ReferenceError` in the scope of schema.js, and in no scope at all does it
yield the type `GraphQLPost`. -/
theorem post_id_not_classified_as_post :
    (∀ r : Row, ¬ (sampleClasses.Page r = true ∧ sampleClasses.Post r = true)) ∧
    toGlobalId sampleSetup "Page" "2" = .ok "2:egaP" ∧
    toGlobalId sampleSetup "Post" "2" = .ok "2:tsoP" ∧
    idResolver sampleDb (fromGlobalId sampleSetup) "2:egaP"
      = .ok ([DbCall.getPostById "2"], some ⟨"Page", "2"⟩) ∧
    idResolver sampleDb (fromGlobalId sampleSetup) "2:tsoP"
      = .ok ([DbCall.getPostById "2"], some ⟨"Page", "2"⟩) ∧
    nodeType schemaScope sampleDb sampleClasses (fromGlobalId sampleSetup) "2:tsoP"
      = .error (JsError.ReferenceError "User") ∧
    (∀ scope : List String,
      nodeType scope sampleDb sampleClasses (fromGlobalId sampleSetup) "2:tsoP"
        ≠ .ok (some GraphQLType.GraphQLPost)) := by
  have hres : idResolver sampleDb (fromGlobalId sampleSetup) "2:tsoP"
      = .ok ([DbCall.getPostById "2"], some ⟨"Page", "2"⟩) := by rfl
  refine ⟨?_, by rfl, by rfl, by rfl, hres, ?_, ?_⟩
  · intro r h
    simp only [sampleClasses, decide_eq_true_eq] at h
    exact absurd (h.1.symm.trans h.2) (by decide)
  · rw [nodeType_of_decoded schemaScope sampleDb sampleClasses _ _ _ _ hres]
    exact typeResolver_schemaScope _ _
  · intro scope h
    rw [nodeType_of_decoded scope sampleDb sampleClasses _ _ _ _ hres] at h
    simp only [typeResolver, instanceOf, sampleClasses] at h
    by_cases h1 : "User" ∈ scope <;> by_cases h2 : "Setting" ∈ scope <;>
      by_cases h3 : "Page" ∈ scope <;> simp [h1, h2, h3] at h

/-! ## The `id` fields -/

/-- C3: the `id` field of `GraphQLSetting` emits, for an instance of `Setting`,
an identifier that decodes to the tag `User` and the local id of the instance;
the id resolver then dispatches to `getUser` and not to the public settings. -/
theorem setting_id_decodes_to_user {V P : Type} (db : Db V P)
    (encode : String → String → Except CodecError String)
    (decode : String → Except CodecError ResolvedGlobalId)
    (localId : V → String) (obj : V) (g : String)
    (hcodec : ∀ id g, encode "User" id = .ok g → decode g = .ok ⟨"User", id⟩)
    (hemit : GraphQLSetting.id encode localId obj = .ok g) :
    decode g = .ok ⟨"User", localId obj⟩ ∧
    decode g ≠ .ok ⟨"Setting", localId obj⟩ ∧
    idResolver db decode g
      = .ok ([DbCall.getUser (localId obj)], some (db.getUser (localId obj))) := by
  have hd : decode g = .ok ⟨"User", localId obj⟩ := hcodec (localId obj) g hemit
  refine ⟨hd, ?_, ?_⟩
  · rw [hd]
    intro h
    injection h with h
    injection h with h1 _
    exact absurd h1 (by decide)
  · rw [idResolver_of_decoded db decode g "User" (localId obj) hd]; rfl

theorem sampleSetup_user (id g : String) (h : toGlobalId sampleSetup "User" id = .ok g) :
    fromGlobalId sampleSetup g = .ok ⟨"User", id⟩ := by
  obtain ⟨g2, h1, h2⟩ := roundtrip_of_valid sampleSetup sampleSetup_reveal_hide "User" id
    ⟨by decide, by decide⟩
  rw [h1] at h
  injection h with h
  rw [← h]
  exact h2

/-- C3, at the public settings of the sample store, whose local id is `1`. -/
theorem setting_id_decodes_to_user_witness :
    GraphQLSetting.id (toGlobalId sampleSetup) Row.id sampleDb.publicSettings = .ok "1:resU" ∧
    fromGlobalId sampleSetup "1:resU" = .ok ⟨"User", "1"⟩ ∧
    fromGlobalId sampleSetup "1:resU" ≠ .ok ⟨"Setting", "1"⟩ ∧
    idResolver sampleDb (fromGlobalId sampleSetup) "1:resU"
      = .ok ([DbCall.getUser "1"], some (sampleDb.getUser "1")) :=
  ⟨by rfl,
   setting_id_decodes_to_user sampleDb (toGlobalId sampleSetup) (fromGlobalId sampleSetup)
     Row.id sampleDb.publicSettings "1:resU" sampleSetup_user (by rfl)⟩

/-! ## The connection fields of `GraphQLUser` -/

/-- C10: the resolvers of the fields `options` and `posts` return the connection
that the pager makes of the fetched sequence and the paging arguments; the
resolver of the field `postmeta` returns the fetched sequence itself, which is
not the result of the pager. -/
theorem postmeta_returns_fetched_sequence {V P C : Type} (db : Db V P)
    (pager : P → ConnectionArgs → C) (root : V)
    (args : ConnectionArgs) (postsArgs : PostsArgs) (postmetaArgs : PostmetaArgs) :
    GraphQLUser.options.resolve db pager root args
      = FieldValue.connection (pager db.ConnQueries.getOptions args) ∧
    GraphQLUser.posts.resolve db pager root postsArgs
      = FieldValue.connection
          (pager (db.ConnQueries.getPosts postsArgs.post_type) postsArgs.toConnectionArgs) ∧
    (GraphQLUser.postmeta.resolve db root postmetaArgs : FieldValue P C)
      = FieldValue.promisedArray (db.ConnQueries.getPostmeta postmetaArgs.post_id) ∧
    (GraphQLUser.postmeta.resolve db root postmetaArgs : FieldValue P C)
      ≠ FieldValue.connection
          (pager (db.ConnQueries.getPostmeta postmetaArgs.post_id)
            postmetaArgs.toConnectionArgs) := by
  refine ⟨rfl, rfl, rfl, ?_⟩
  intro h
  cases h

/-! ## The Base64 obfuscation is reversible -/

theorem sextet_roundtrip : ∀ n, n < 64 → charSextet (sextetChar n) = some n := by
  decide

theorem sextet_ne_pad : ∀ n, n < 64 → sextetChar n ≠ '=' := by
  decide

theorem base64Decode_quad (c1 c2 c3 c4 : Char) (rest : List Char) (v1 v2 v3 v4 : Nat)
    (h1 : charSextet c1 = some v1) (h2 : charSextet c2 = some v2)
    (h3 : charSextet c3 = some v3) (h4 : charSextet c4 = some v4)
    (n3 : c3 ≠ '=') (n4 : c4 ≠ '=') :
    base64Decode (c1 :: c2 :: c3 :: c4 :: rest) =
      match base64Decode rest with
      | some bs =>
        some ((v1 * 4 + v2 / 16) :: (v2 % 16 * 16 + v3 / 4) :: (v3 % 4 * 64 + v4) :: bs)
      | none => none := by
  rw [base64Decode]
  simp only [h1, h2, h3, h4, n3, n4, if_false]
  cases base64Decode rest <;> rfl

theorem base64Decode_encode (bs : List Nat) (h : ∀ b ∈ bs, b < 256) :
    base64Decode (base64Encode bs) = some bs := by
  induction bs using base64Encode.induct with
  | case1 => rfl
  | case2 a =>
    have ha : a < 256 := h a (by simp)
    rw [base64Encode, base64Decode]
    simp only [sextet_roundtrip (a / 4) (by omega), sextet_roundtrip (a % 4 * 16) (by omega)]
    simp
    omega
  | case3 a b =>
    have ha : a < 256 := h a (by simp)
    have hb : b < 256 := h b (by simp)
    rw [base64Encode, base64Decode]
    simp only [sextet_roundtrip (a / 4) (by omega),
      sextet_roundtrip (a % 4 * 16 + b / 16) (by omega),
      sextet_roundtrip (b % 16 * 4) (by omega),
      sextet_ne_pad (b % 16 * 4) (by omega), if_false]
    simp
    omega
  | case4 a b c rest ih =>
    have ha : a < 256 := h a (by simp)
    have hb : b < 256 := h b (by simp)
    have hc : c < 256 := h c (by simp)
    have hr : ∀ x ∈ rest, x < 256 := fun x hx => h x (by simp [hx])
    rw [base64Encode, base64Decode_quad _ _ _ _ _ _ _ _ _
      (sextet_roundtrip (a / 4) (by omega))
      (sextet_roundtrip (a % 4 * 16 + b / 16) (by omega))
      (sextet_roundtrip (b % 16 * 4 + c / 64) (by omega))
      (sextet_roundtrip (c % 64) (by omega))
      (sextet_ne_pad _ (by omega)) (sextet_ne_pad _ (by omega)), ih hr]
    simp
    omega

theorem scalar_toNat (c : Char) : scalar c.toNat = some c := by
  simp [scalar, Char.ofNat_toNat]

theorem char_toNat_lt (c : Char) : c.toNat < 1114112 := by
  have h := c.valid
  simp only [UInt32.isValidChar, Nat.isValidChar] at h
  have e : c.toNat = c.val.toNat := rfl
  omega

theorem utf8EncodeChar_lt (c : Char) : ∀ b ∈ utf8EncodeChar c, b < 256 := by
  have h := char_toNat_lt c
  intro b hb
  unfold utf8EncodeChar at hb
  generalize c.toNat = n at h hb
  split_ifs at hb <;> simp only [List.mem_cons, List.mem_singleton, List.not_mem_nil,
    or_false] at hb <;> omega

theorem utf8Encode_lt (cs : List Char) : ∀ b ∈ utf8Encode cs, b < 256 := by
  induction cs with
  | nil => simp [utf8Encode]
  | cons c cs ih =>
    intro b hb
    simp only [utf8Encode, List.mem_append] at hb
    rcases hb with hb | hb
    · exact utf8EncodeChar_lt c b hb
    · exact ih b hb

theorem isContinuation_low (n : Nat) : isContinuation (128 + n % 64) = true := by
  have h : n % 64 < 64 := Nat.mod_lt _ (by decide)
  simp only [isContinuation, Bool.and_eq_true, decide_eq_true_eq]
  omega

theorem utf8DecodeChar_one (b0 : Nat) (rest : List Nat) (c : Char)
    (h0 : b0 < 128) (hc : scalar b0 = some c) :
    utf8DecodeChar (b0 :: rest) = some (c, rest) := by
  simp only [utf8DecodeChar, h0, if_true, hc, Option.map_some']

theorem utf8DecodeChar_two (b0 b1 : Nat) (rest : List Nat) (c : Char)
    (l0 : 192 ≤ b0) (h0 : b0 < 224) (c1 : isContinuation b1 = true)
    (hc : scalar ((b0 - 192) * 64 + (b1 - 128)) = some c) :
    utf8DecodeChar (b0 :: b1 :: rest) = some (c, rest) := by
  simp only [utf8DecodeChar, show ¬ b0 < 128 by omega, show ¬ b0 < 192 by omega, h0, if_true,
    if_false, c1, hc, Option.map_some']

theorem utf8DecodeChar_three (b0 b1 b2 : Nat) (rest : List Nat) (c : Char)
    (l0 : 224 ≤ b0) (h0 : b0 < 240) (c1 : isContinuation b1 = true)
    (c2 : isContinuation b2 = true)
    (hc : scalar ((b0 - 224) * 4096 + (b1 - 128) * 64 + (b2 - 128)) = some c) :
    utf8DecodeChar (b0 :: b1 :: b2 :: rest) = some (c, rest) := by
  simp only [utf8DecodeChar, show ¬ b0 < 128 by omega, show ¬ b0 < 192 by omega,
    show ¬ b0 < 224 by omega, h0, if_true, if_false, c1, c2, Bool.and_self, hc,
    Option.map_some']

theorem utf8DecodeChar_four (b0 b1 b2 b3 : Nat) (rest : List Nat) (c : Char)
    (l0 : 240 ≤ b0) (h0 : b0 < 248) (c1 : isContinuation b1 = true)
    (c2 : isContinuation b2 = true) (c3 : isContinuation b3 = true)
    (hc : scalar ((b0 - 240) * 262144 + (b1 - 128) * 4096 + (b2 - 128) * 64 + (b3 - 128))
      = some c) :
    utf8DecodeChar (b0 :: b1 :: b2 :: b3 :: rest) = some (c, rest) := by
  simp only [utf8DecodeChar, show ¬ b0 < 128 by omega, show ¬ b0 < 192 by omega,
    show ¬ b0 < 224 by omega, show ¬ b0 < 240 by omega, h0, if_true, if_false, c1, c2, c3,
    Bool.and_self, hc, Option.map_some']

theorem utf8EncodeChar_spec (c : Char) (rest : List Nat) :
    ∃ b bs, utf8EncodeChar c ++ rest = b :: bs ∧ rest.length ≤ bs.length ∧
      utf8DecodeChar (b :: bs) = some (c, rest) := by
  have hlt := char_toNat_lt c
  generalize hn : c.toNat = n at hlt
  have hs : scalar n = some c := hn ▸ scalar_toNat c
  unfold utf8EncodeChar
  rw [hn]
  split_ifs with h1 h2 h3
  · exact ⟨_, _, rfl, Nat.le_refl _, utf8DecodeChar_one n rest c h1 hs⟩
  · have e : (192 + n / 64 - 192) * 64 + (128 + n % 64 - 128) = n := by omega
    exact ⟨_, _, rfl, by simp, utf8DecodeChar_two _ _ rest c (by omega) (by omega)
      (isContinuation_low n) (by rw [e]; exact hs)⟩
  · have e : (224 + n / 4096 - 224) * 4096 + (128 + n / 64 % 64 - 128) * 64
        + (128 + n % 64 - 128) = n := by omega
    exact ⟨_, _, rfl, by simp; omega, utf8DecodeChar_three _ _ _ rest c (by omega) (by omega)
      (isContinuation_low _) (isContinuation_low n) (by rw [e]; exact hs)⟩
  · have e : (240 + n / 262144 - 240) * 262144 + (128 + n / 4096 % 64 - 128) * 4096
        + (128 + n / 64 % 64 - 128) * 64 + (128 + n % 64 - 128) = n := by omega
    exact ⟨_, _, rfl, by simp; omega, utf8DecodeChar_four _ _ _ _ rest c (by omega) (by omega)
      (isContinuation_low _) (isContinuation_low _) (isContinuation_low n)
      (by rw [e]; exact hs)⟩

theorem utf8DecodeFuel_encode (cs : List Char) (fuel : Nat)
    (h : (utf8Encode cs).length ≤ fuel) :
    utf8DecodeFuel fuel (utf8Encode cs) = some cs := by
  induction cs generalizing fuel with
  | nil => cases fuel <;> rfl
  | cons c cs ih =>
    obtain ⟨b, bs, hb, hlen, hd⟩ := utf8EncodeChar_spec c (utf8Encode cs)
    rw [utf8Encode, hb] at h ⊢
    cases fuel with
    | zero => simp at h
    | succ fuel =>
      rw [utf8DecodeFuel, hd]
      simp only [List.length_cons] at h
      simp only [ih fuel (by omega)]

theorem utf8Decode_encode (cs : List Char) : utf8Decode (utf8Encode cs) = some cs :=
  utf8DecodeFuel_encode cs _ (Nat.le_refl _)

theorem unbase64_base64 (s : String) : unbase64 (base64 s) = some s := by
  simp only [unbase64, base64, base64Decode_encode _ (utf8Encode_lt s.data),
    utf8Decode_encode]


/-! ## The codec on valid pairs -/

theorem hide_injective (cfg : CodecSetup)
    (hrev : ∀ s, cfg.reveal (cfg.hide s) = some s) (s1 s2 : String)
    (h : cfg.hide s1 = cfg.hide s2) : s1 = s2 := by
  have h2 : cfg.reveal (cfg.hide s1) = cfg.reveal (cfg.hide s2) := by rw [h]
  rw [hrev, hrev] at h2
  exact Option.some.inj h2

theorem toGlobalId_injective (cfg : CodecSetup)
    (hrev : ∀ s, cfg.reveal (cfg.hide s) = some s) (tag id tag2 id2 : String)
    (hv : ValidPair cfg tag) (hv2 : ValidPair cfg tag2)
    (h : toGlobalId cfg tag2 id2 = toGlobalId cfg tag id) : tag2 = tag ∧ id2 = id := by
  rw [toGlobalId_of_valid cfg tag id hv, toGlobalId_of_valid cfg tag2 id2 hv2] at h
  injection h with h
  have hs := hide_injective cfg hrev _ _ h
  have hd : tag2.data ++ cfg.separator :: id2.data = tag.data ++ cfg.separator :: id.data :=
    congrArg String.data hs
  have h1 := splitAtSeparator_append cfg.separator tag2.data id2.data hv2.2
  rw [hd, splitAtSeparator_append cfg.separator tag.data id.data hv.2] at h1
  injection h1 with h1
  injection h1 with ht hi
  exact ⟨String.ext ht.symm, String.ext hi.symm⟩

theorem base64Setup_reveal_hide (s : String) :
    base64Setup.reveal (base64Setup.hide s) = some s :=
  unbase64_base64 s

/-- C6: for every valid pair, the tag not empty and without the separator `:`,
the local id any text, encoding succeeds and decoding the encoded identifier
returns exactly the pair; and two different valid pairs never encode to the
same string.  The codec is Base64 of the UTF-8 text `tag:id`. -/
theorem globalId_roundtrip (tag id : String) (hv : ValidPair base64Setup tag) :
    (∃ g, toGlobalId base64Setup tag id = .ok g ∧
      fromGlobalId base64Setup g = .ok ⟨tag, id⟩) ∧
    (∀ tag2 id2 : String, ValidPair base64Setup tag2 →
      toGlobalId base64Setup tag2 id2 = toGlobalId base64Setup tag id →
      tag2 = tag ∧ id2 = id) :=
  ⟨roundtrip_of_valid base64Setup base64Setup_reveal_hide tag id hv,
   fun tag2 id2 hv2 h =>
     toGlobalId_injective base64Setup base64Setup_reveal_hide tag id tag2 id2 hv hv2 h⟩

/-- C6, at the pair (`Comment`, `4:2`), whose tag the id resolver has no branch
for and whose local id contains the separator. -/
theorem globalId_roundtrip_witness :
    ValidPair base64Setup "Comment" ∧
    toGlobalId base64Setup "Comment" "4:2" = .ok "Q29tbWVudDo0OjI=" ∧
    fromGlobalId base64Setup "Q29tbWVudDo0OjI=" = .ok ⟨"Comment", "4:2"⟩ ∧
    ((∃ g, toGlobalId base64Setup "Comment" "4:2" = .ok g ∧
      fromGlobalId base64Setup g = .ok ⟨"Comment", "4:2"⟩) ∧
    (∀ tag2 id2 : String, ValidPair base64Setup tag2 →
      toGlobalId base64Setup tag2 id2 = toGlobalId base64Setup "Comment" "4:2" →
      tag2 = "Comment" ∧ id2 = "4:2")) :=
  ⟨⟨by decide, by decide⟩, by rfl, by rfl,
   globalId_roundtrip "Comment" "4:2" ⟨by decide, by decide⟩⟩

/-! ## The connection pager -/

theorem positionsFrom_append {α : Type} (xs ys : List α) (s : Nat) :
    positionsFrom s (xs ++ ys) = positionsFrom s xs ++ positionsFrom (s + xs.length) ys := by
  induction xs generalizing s with
  | nil => simp [positionsFrom]
  | cons x xs ih =>
    have e : s + 1 + xs.length = s + (xs.length + 1) := by omega
    show (s, x) :: positionsFrom (s + 1) (xs ++ ys) = _
    rw [ih, e]
    rfl

theorem positionsFrom_take {α : Type} (xs : List α) (s n : Nat) :
    (positionsFrom s xs).take n = positionsFrom s (xs.take n) := by
  induction xs generalizing s n with
  | nil => simp [positionsFrom]
  | cons x xs ih =>
    cases n with
    | zero => simp [positionsFrom]
    | succ n => simp [positionsFrom, ih]

theorem positionsFrom_length {α : Type} (xs : List α) (s : Nat) :
    (positionsFrom s xs).length = xs.length := by
  induction xs generalizing s with
  | nil => simp [positionsFrom]
  | cons x xs ih => simp [positionsFrom, ih]

theorem positionsFrom_filter_all {α : Type} (xs : List α) (s p : Nat) (h : p < s) :
    (positionsFrom s xs).filter (fun e => decide (p < e.1)) = positionsFrom s xs := by
  induction xs generalizing s with
  | nil => simp [positionsFrom]
  | cons x xs ih =>
    simp only [positionsFrom, List.filter_cons, h, decide_True, if_true]
    rw [ih (s + 1) (by omega)]

theorem positionsFrom_filter_after {α : Type} (xs : List α) (s p : Nat) (h : s ≤ p + 1) :
    (positionsFrom s xs).filter (fun e => decide (p < e.1))
      = positionsFrom (p + 1) (xs.drop (p + 1 - s)) := by
  induction xs generalizing s with
  | nil => simp [positionsFrom]
  | cons x xs ih =>
    by_cases hs : s = p + 1
    · subst hs
      rw [positionsFrom_filter_all (x :: xs) (p + 1) p (by omega)]
      simp
    · have hlt : ¬ p < s := by omega
      have hd : p + 1 - s = (p + 1 - (s + 1)) + 1 := by omega
      simp only [positionsFrom, List.filter_cons, hlt, decide_False]
      rw [ih (s + 1) (by omega), hd, List.drop_succ_cons]
      simp

theorem positionsFrom_getLast {α : Type} (xs : List α) (s : Nat) (h : xs ≠ []) :
    ∃ x, (positionsFrom s xs).getLast? = some (s + xs.length - 1, x) := by
  rcases List.eq_nil_or_concat xs with h0 | ⟨init, l, rfl⟩
  · exact absurd h0 h
  · refine ⟨l, ?_⟩
    rw [List.concat_eq_append, positionsFrom_append]
    simp [positionsFrom]

theorem positionsFrom_getElem? {α : Type} (xs : List α) (s k : Nat) :
    (positionsFrom s xs)[k]? = xs[k]?.map (fun x => (s + k, x)) := by
  induction xs generalizing s k with
  | nil => simp [positionsFrom]
  | cons x xs ih =>
    cases k with
    | zero => simp [positionsFrom]
    | succ k =>
      simp only [positionsFrom, List.getElem?_cons_succ, ih]
      have e : s + 1 + k = s + (k + 1) := by omega
      rw [e]

theorem tallyCursor_roundtrip (n : Nat) :
    tallyCursor.positionOf (tallyCursor.cursorOf n) = some n := by
  simp [tallyCursor]

theorem applyFirst_natCast {α : Type} (n : Nat) (xs : List (Nat × α)) :
    applyFirst (some (n : Int)) xs = .ok (xs.take n) := by
  simp [applyFirst]

theorem paginate_firstArgs {α : Type} (cc : CursorCodec) (seq : List α) (n : Nat) :
    paginate cc seq (firstArgs n) =
      .ok ⟨(positionsFrom 0 (seq.take n)).map (fun e => ⟨cc.cursorOf e.1, e.2⟩),
        ⟨decide ((positionsFrom 0 (seq.take n)).length < (positionsFrom 0 (seq.take n)).length),
         decide ((positionsFrom 0 (seq.take n)).length < (positionsFrom 0 seq).length),
         (positionsFrom 0 (seq.take n)).head?.map (fun e => cc.cursorOf e.1),
         (positionsFrom 0 (seq.take n)).getLast?.map (fun e => cc.cursorOf e.1)⟩⟩ := by
  simp only [paginate, firstArgs, applyAfter, applyBefore, applyFirst_natCast, applyLast,
    positionsFrom_take]

theorem paginate_afterFirstArgs {α : Type} (cc : CursorCodec) (seq : List α) (c : String)
    (p m : Nat) (hc : cc.positionOf c = some p) :
    ∃ info, paginate cc seq (afterFirstArgs (some c) m) =
      .ok ⟨(positionsFrom (p + 1) ((seq.drop (p + 1)).take m)).map
        (fun e => ⟨cc.cursorOf e.1, e.2⟩), info⟩ := by
  simp only [paginate, afterFirstArgs, applyAfter, hc, applyBefore, applyFirst_natCast,
    applyLast, positionsFrom_filter_after seq 0 p (Nat.zero_le _), positionsFrom_take,
    Nat.sub_zero]
  exact ⟨_, rfl⟩

theorem take_append_take_drop {α : Type} (seq : List α) (N M : Nat) :
    seq.take N ++ (seq.drop (seq.take N).length).take M = seq.take (N + M) := by
  by_cases h : N ≤ seq.length
  · rw [List.length_take, Nat.min_eq_left h, List.take_add]
  · have h2 : seq.length ≤ N := by omega
    rw [List.take_of_length_le h2, List.take_of_length_le (by omega : seq.length ≤ N + M)]
    simp

/-- C7: for every sequence and all counts `N` and `M`, the pager succeeds on
`{first: N}`, on `{after: endCursor of that page, first: M}` and on
`{first: N + M}`; the edges of the first two pages, in this order, are the edges
of the third; and the edge at index `k` of the third page is the element at
position `k` of the full sequence with the cursor of position `k`. -/
theorem paginate_first_then_after {α : Type} (cc : CursorCodec)
    (hcc : ∀ n, cc.positionOf (cc.cursorOf n) = some n) (seq : List α) (N M : Nat) :
    ∃ p1 p2 p3, paginate cc seq (firstArgs N) = .ok p1 ∧
      paginate cc seq (afterFirstArgs p1.pageInfo.endCursor M) = .ok p2 ∧
      paginate cc seq (firstArgs (N + M)) = .ok p3 ∧
      p1.edges ++ p2.edges = p3.edges ∧
      ∀ k, p3.edges[k]? =
        if k < N + M then seq[k]?.map (fun x => ⟨cc.cursorOf k, x⟩) else none := by
  have hlast : ∀ k, ((positionsFrom 0 (seq.take (N + M))).map
      (fun e => (⟨cc.cursorOf e.1, e.2⟩ : Edge α)))[k]? =
      if k < N + M then seq[k]?.map (fun x => ⟨cc.cursorOf k, x⟩) else none := by
    intro k
    rw [List.getElem?_map, positionsFrom_getElem?, List.getElem?_take]
    by_cases hk : k < N + M
    · simp only [hk, if_true, Nat.zero_add]
      cases seq[k]? <;> rfl
    · simp [hk]
  obtain ⟨p1, hp1, he1, hc1⟩ : ∃ p, paginate cc seq (firstArgs N) = .ok p ∧
      p.edges = (positionsFrom 0 (seq.take N)).map (fun e => ⟨cc.cursorOf e.1, e.2⟩) ∧
      p.pageInfo.endCursor =
        (positionsFrom 0 (seq.take N)).getLast?.map (fun e => cc.cursorOf e.1) :=
    ⟨_, paginate_firstArgs cc seq N, rfl, rfl⟩
  obtain ⟨p3, hp3, he3⟩ : ∃ p, paginate cc seq (firstArgs (N + M)) = .ok p ∧
      p.edges = (positionsFrom 0 (seq.take (N + M))).map (fun e => ⟨cc.cursorOf e.1, e.2⟩) :=
    ⟨_, paginate_firstArgs cc seq (N + M), rfl⟩
  by_cases h : seq.take N = []
  · have hM : seq.take M = seq.take (N + M) := by
      rcases List.take_eq_nil_iff.mp h with h0 | h0
      · simp [h0]
      · simp [h0]
    obtain ⟨p2, hp2, he2⟩ : ∃ p, paginate cc seq (firstArgs M) = .ok p ∧
        p.edges = (positionsFrom 0 (seq.take M)).map (fun e => ⟨cc.cursorOf e.1, e.2⟩) :=
      ⟨_, paginate_firstArgs cc seq M, rfl⟩
    refine ⟨p1, p2, p3, hp1, ?_, hp3, ?_, ?_⟩
    · rw [hc1, h]
      exact hp2
    · rw [he1, he2, he3, h, hM]
      rfl
    · rw [he3]
      exact hlast
  · obtain ⟨x, hx⟩ := positionsFrom_getLast (seq.take N) 0 h
    have hlen : 0 < (seq.take N).length := List.length_pos.mpr h
    have hp : 0 + (seq.take N).length - 1 + 1 = (seq.take N).length := by omega
    obtain ⟨info, hinfo⟩ := paginate_afterFirstArgs cc seq
      (cc.cursorOf (0 + (seq.take N).length - 1)) (0 + (seq.take N).length - 1) M (hcc _)
    rw [hp] at hinfo
    obtain ⟨p2, hp2, he2⟩ : ∃ p, paginate cc seq
        (afterFirstArgs (some (cc.cursorOf (0 + (seq.take N).length - 1))) M) = .ok p ∧
        p.edges = (positionsFrom (seq.take N).length
          ((seq.drop (seq.take N).length).take M)).map (fun e => ⟨cc.cursorOf e.1, e.2⟩) :=
      ⟨_, hinfo, rfl⟩
    refine ⟨p1, p2, p3, hp1, ?_, hp3, ?_, ?_⟩
    · rw [hc1, hx]
      exact hp2
    · rw [he1, he2, he3, ← List.map_append]
      congr 1
      have e := positionsFrom_append (seq.take N) ((seq.drop (seq.take N).length).take M) 0
      rw [Nat.zero_add] at e
      rw [← e, take_append_take_drop]
    · rw [he3]
      exact hlast

/-- C7, at the sequence `a, b, c, d, e` with `N = 2` and `M = 2` under the unary
cursor codec. -/
theorem paginate_first_then_after_witness :
    ∃ p1 p2 p3, paginate tallyCursor ["a", "b", "c", "d", "e"] (firstArgs 2) = .ok p1 ∧
      paginate tallyCursor ["a", "b", "c", "d", "e"]
        (afterFirstArgs p1.pageInfo.endCursor 2) = .ok p2 ∧
      paginate tallyCursor ["a", "b", "c", "d", "e"] (firstArgs (2 + 2)) = .ok p3 ∧
      p1.edges ++ p2.edges = p3.edges ∧
      ∀ k, p3.edges[k]? =
        if k < 2 + 2 then
          (["a", "b", "c", "d", "e"])[k]?.map (fun x => ⟨tallyCursor.cursorOf k, x⟩)
        else none :=
  paginate_first_then_after tallyCursor tallyCursor_roundtrip ["a", "b", "c", "d", "e"] 2 2

end WordExpress
